import Mathlib

/-
Shallow embedding of `src/substratekitties/runtime/src/substratekitties.rs`.

Storage maps of the Substrate module are modelled as total functions (a
Substrate storage map returns the value type's default for an absent key;
`KittyOwner` is declared with an `Option` value, hence `Hash → Option Nat`).
Machine integers (`u64` counts, the nonce) are modelled as `Nat`; the
`checked_add` / `checked_sub` guards carry the explicit `2 ^ 64 - 1` bound, so
overflow behaviour is represented exactly where the code checks it.
Dispatchable calls return the post state together with an outcome: `ok`,
`err msg` (the module's `Err(&str)` — in this Substrate version an `Err`
return does not roll anything back, and all of the module's checks happen
before its first write), or `panic msg` (the `expect` in `buy_kitty`).
-/

namespace SubstrateKitties

/-- `T::Hash` values (also used as dna byte strings, as in the Rust code where
`Hash = H256` is a byte array). -/
abbrev Hash := List Nat

/-- Default hash value, returned by a storage map for an absent key and written
back by `remove`. -/
def defaultHash : Hash := []

/-- The `Kitty<Hash, Balance>` struct. -/
structure Kitty where
  id : Hash
  dna : Hash
  price : Nat
  gen : Nat
deriving DecidableEq

instance : Inhabited Kitty := ⟨⟨defaultHash, defaultHash, 0, 0⟩⟩

/-- Outcome of a dispatchable call: `Ok(())`, `Err(msg)`, or a panic
(the `expect` in `buy_kitty`). -/
inductive RRes where
  | ok : RRes
  | err : String → RRes
  | panic : String → RRes
deriving DecidableEq

/-- The module's storage (`decl_storage!`), plus the external balances ledger
consumed through the `Currency` trait. -/
structure KState where
  kitties : Hash → Option Kitty
  kittyOwner : Hash → Option Nat
  allKittiesArray : Nat → Hash
  allKittiesCount : Nat
  allKittiesIndex : Hash → Nat
  ownedKittiesArray : Nat × Nat → Hash
  ownedKittiesCount : Nat → Nat
  ownedKittiesIndex : Hash → Nat
  nonce : Nat
  balances : Nat → Nat

/-- `u64::MAX`. -/
def UMAX : Nat := 2 ^ 64 - 1

/-- `u64::checked_add(1)`. -/
def checkedAdd (n : Nat) : Option Nat :=
  if n + 1 ≤ UMAX then some (n + 1) else none

/-- `u64::checked_sub(1)`. -/
def checkedSub (n : Nat) : Option Nat :=
  if n = 0 then none else some (n - 1)

/-- The batch of storage writes performed by `mint` after its checks
(lines 205-214 of the source). -/
def mintPost (s : KState) (toAcc : Nat) (kittyId : Hash) (newKitty : Kitty) : KState :=
  { s with
    kitties := Function.update s.kitties kittyId (some newKitty)
    kittyOwner := Function.update s.kittyOwner kittyId (some toAcc)
    allKittiesArray := Function.update s.allKittiesArray s.allKittiesCount kittyId
    allKittiesCount := s.allKittiesCount + 1
    allKittiesIndex := Function.update s.allKittiesIndex kittyId s.allKittiesCount
    ownedKittiesArray := Function.update s.ownedKittiesArray (toAcc, s.ownedKittiesCount toAcc) kittyId
    ownedKittiesCount := Function.update s.ownedKittiesCount toAcc (s.ownedKittiesCount toAcc + 1)
    ownedKittiesIndex := Function.update s.ownedKittiesIndex kittyId (s.ownedKittiesCount toAcc) }

/-- `fn mint` (lines 192-219): existence check on `KittyOwner`, both
`checked_add` guards, then the writes of `mintPost`. -/
def mint (s : KState) (toAcc : Nat) (kittyId : Hash) (newKitty : Kitty) : KState × RRes :=
  if (s.kittyOwner kittyId).isSome then (s, RRes.err "Kitty already exists") else
  match checkedAdd (s.ownedKittiesCount toAcc) with
  | none => (s, RRes.err "Overflow adding a new kitty to account balance")
  | some _ =>
    match checkedAdd s.allKittiesCount with
    | none => (s, RRes.err "Overflow adding a new kitty to total supply")
    | some _ => (mintPost s toAcc kittyId newKitty, RRes.ok)

/-- The batch of storage writes performed by `transfer_from` after its checks
(lines 234-257 of the source): the swap-and-pop branch, then the inserts and
the `remove`, in the source's order (later writes outermost). -/
def tfPost (s : KState) (fromAcc toAcc : Nat) (kittyId : Hash) : KState :=
  let newCountFrom := s.ownedKittiesCount fromAcc - 1
  let countTo := s.ownedKittiesCount toAcc
  let kittyIndex := s.ownedKittiesIndex kittyId
  let lastKittyId := s.ownedKittiesArray (fromAcc, newCountFrom)
  let arr1 := if kittyIndex = newCountFrom then s.ownedKittiesArray
    else Function.update s.ownedKittiesArray (fromAcc, kittyIndex) lastKittyId
  let idx1 := if kittyIndex = newCountFrom then s.ownedKittiesIndex
    else Function.update s.ownedKittiesIndex lastKittyId kittyIndex
  { s with
    kittyOwner := Function.update s.kittyOwner kittyId (some toAcc)
    ownedKittiesIndex := Function.update idx1 kittyId countTo
    ownedKittiesArray :=
      Function.update (Function.update arr1 (toAcc, countTo) kittyId)
        (fromAcc, newCountFrom) defaultHash
    ownedKittiesCount :=
      Function.update (Function.update s.ownedKittiesCount fromAcc newCountFrom)
        toAcc (countTo + 1) }

/-- `fn transfer_from` (lines 221-262): owner lookup, ownership check,
`checked_add` on the recipient's count, `checked_sub` on the sender's count,
then the writes of `tfPost`. -/
def transfer_from (s : KState) (fromAcc toAcc : Nat) (kittyId : Hash) : KState × RRes :=
  match s.kittyOwner kittyId with
  | none => (s, RRes.err "No owner for this kitty")
  | some owner =>
    if owner = fromAcc then
      match checkedAdd (s.ownedKittiesCount toAcc) with
      | none => (s, RRes.err "Overflow adding a new kitty to account balance")
      | some _ =>
        match checkedSub (s.ownedKittiesCount fromAcc) with
        | none => (s, RRes.err "Overflow removing a new kitty from account balance")
        | some _ => (tfPost s fromAcc toAcc kittyId, RRes.ok)
    else (s, RRes.err "You do not own this kitty")

/-- The shared tail of `create_kitty` and `breed_kitty`: `Self::mint(...)?`
followed by `Nonce::mutate(|n| *n += 1)` — the nonce is bumped only when the
inner mint succeeded, and a mint failure propagates with no state change. -/
def mintBump (s : KState) (sender : Nat) (randomHash : Hash) (newKitty : Kitty) :
    KState × RRes :=
  let r := mint s sender randomHash newKitty
  match r.2 with
  | RRes.ok => ({ r.1 with nonce := r.1.nonce + 1 }, RRes.ok)
  | e => (r.1, e)

/-- `fn create_kitty` (lines 56-74). The hash
`(random_seed(), sender, nonce).using_encoded(hash)` is supplied as the
`randomHash` argument, since the seed is an external input. -/
def create_kitty (s : KState) (sender : Nat) (randomHash : Hash) : KState × RRes :=
  mintBump s sender randomHash
    { id := randomHash, dna := randomHash, price := 0, gen := 0 }

/-- The storage write of `set_price` (line 87): overwrite the record with the
price replaced. -/
def setPricePost (s : KState) (kittyId : Hash) (newPrice : Nat) : KState :=
  let kitty := (s.kitties kittyId).getD default
  { s with kitties :=
      Function.update s.kitties kittyId (some { kitty with price := newPrice }) }

/-- `fn set_price` (lines 76-92). -/
def set_price (s : KState) (sender : Nat) (kittyId : Hash) (newPrice : Nat) :
    KState × RRes :=
  if (s.kitties kittyId).isSome = false then (s, RRes.err "This cat does not exist") else
  match s.kittyOwner kittyId with
  | none => (s, RRes.err "No owner for this kitty")
  | some owner =>
    if owner = sender then (setPricePost s kittyId newPrice, RRes.ok)
    else (s, RRes.err "You do not own this cat")

/-- `fn transfer` (lines 94-103): ownership check, then `transfer_from`. -/
def transfer (s : KState) (sender toAcc : Nat) (kittyId : Hash) : KState × RRes :=
  match s.kittyOwner kittyId with
  | none => (s, RRes.err "No owner for this kitty")
  | some owner =>
    if owner = sender then transfer_from s sender toAcc kittyId
    else (s, RRes.err "You do not own this kitty")

/-- Modelled from the spec: the external Currency collaborator's
`transfer(from, to, amount) -> Result` (spec section 6) — the balances crate is
not part of this repository. It fails on insufficient funds and otherwise
atomically debits `src` and credits `dst` (a self-transfer leaves the balance
unchanged). -/
def currencyTransfer (bal : Nat → Nat) (src dst : Nat) (amount : Nat) :
    Option (Nat → Nat) :=
  if amount ≤ bal src then
    let debited := Function.update bal src (bal src - amount)
    some (Function.update debited dst (debited dst + amount))
  else none

/-- The message of the `expect` on the `transfer_from` call in `buy_kitty`
(lines 128-133). -/
def expectMsg : String :=
  "`owner` is shown to own the kitty; `owner` must have greater than 0 kitties, so transfer cannot cause underflow; `all_kitty_count` shares the same type as `owned_kitty_count` and minting ensure there won't ever be more than `max()` kitties, which means transfer cannot cause an overflow; qed"

/-- `fn buy_kitty` (lines 105-142): existence, owner lookup, the
`owner == sender` check, the zero-price and max-price checks, the currency
transfer, then `transfer_from` behind an `expect` (a failure there panics),
and finally the price reset. -/
def buy_kitty (s : KState) (sender : Nat) (kittyId : Hash) (maxPrice : Nat) :
    KState × RRes :=
  if (s.kitties kittyId).isSome = false then (s, RRes.err "This cat does not exist") else
  match s.kittyOwner kittyId with
  | none => (s, RRes.err "No owner for this kitty")
  | some owner =>
    if owner = sender then
      let kitty := (s.kitties kittyId).getD default
      let kittyPrice := kitty.price
      if kittyPrice = 0 then (s, RRes.err "kitty price is zero") else
      if kittyPrice ≤ maxPrice then
        match currencyTransfer s.balances sender owner kittyPrice with
        | none => (s, RRes.err "balance too low to send value")
        | some newBalances =>
          let r := transfer_from { s with balances := newBalances } owner sender kittyId
          match r.2 with
          | RRes.ok =>
            ({ r.1 with kitties :=
                Function.update r.1.kitties kittyId (some { kitty with price := 0 }) }, RRes.ok)
          | _ => (r.1, RRes.panic expectMsg)
      else (s, RRes.err "kitty is too expensive")
    else (s, RRes.err "You do not own this kitty")

/-- The gene-splicing loop of `breed_kitty` (lines 160-166): start from
parent 1's dna and, at each position of the zip of parent 2's dna with the
random hash, overwrite with parent 2's byte when the hash byte is even. -/
def spliceDna : Hash → Hash → Hash → Hash
  | [], _, _ => []
  | d1, [], _ => d1
  | d1, _, [] => d1
  | b1 :: d1, b2 :: d2, r :: m => (if r % 2 = 0 then b2 else b1) :: spliceDna d1 d2 m

/-- `fn breed_kitty` (lines 144-187). As in `create_kitty`, the derived random
hash is supplied as the `randomHash` argument. -/
def breed_kitty (s : KState) (sender : Nat) (kittyId1 kittyId2 : Hash)
    (randomHash : Hash) : KState × RRes :=
  if (s.kitties kittyId1).isSome = false then (s, RRes.err "Cat 1 does not exist") else
  if (s.kitties kittyId2).isSome = false then (s, RRes.err "Cat 2 does not exist") else
  let kitty1 := (s.kitties kittyId1).getD default
  let kitty2 := (s.kitties kittyId2).getD default
  let finalDna := spliceDna kitty1.dna kitty2.dna randomHash
  let newKitty : Kitty :=
    { id := randomHash, dna := finalDna, price := 0, gen := max kitty1.gen kitty2.gen + 1 }
  mintBump s sender randomHash newKitty

/-- The genesis state: empty registry, zero nonce, and an arbitrary initial
balances ledger (the currency is an external collaborator). -/
def emptyState (bal : Nat → Nat) : KState :=
  { kitties := fun _ => none
    kittyOwner := fun _ => none
    allKittiesArray := fun _ => defaultHash
    allKittiesCount := 0
    allKittiesIndex := fun _ => 0
    ownedKittiesArray := fun _ => defaultHash
    ownedKittiesCount := fun _ => 0
    ownedKittiesIndex := fun _ => 0
    nonce := 0
    balances := bal }

/-- States reachable from genesis through the module's public dispatchables.
The random hashes fed to `create_kitty` / `breed_kitty` are arbitrary, since
they are derived from the external randomness seed. -/
inductive Reachable : KState → Prop where
  | genesis (bal : Nat → Nat) : Reachable (emptyState bal)
  | create (s : KState) (sender : Nat) (randomHash : Hash) :
      Reachable s → Reachable (create_kitty s sender randomHash).1
  | price (s : KState) (sender : Nat) (kittyId : Hash) (p : Nat) :
      Reachable s → Reachable (set_price s sender kittyId p).1
  | xfer (s : KState) (sender toAcc : Nat) (kittyId : Hash) :
      Reachable s → Reachable (transfer s sender toAcc kittyId).1
  | buy (s : KState) (sender : Nat) (kittyId : Hash) (maxPrice : Nat) :
      Reachable s → Reachable (buy_kitty s sender kittyId maxPrice).1
  | breed (s : KState) (sender : Nat) (kittyId1 kittyId2 randomHash : Hash) :
      Reachable s → Reachable (breed_kitty s sender kittyId1 kittyId2 randomHash).1

/-- The data-model invariants of spec section 3 for the per-owner enumeration
(invariants 1, 3 and 4): every slot below an owner's count holds an id owned
by that owner with a consistent reverse index, every owned id sits in its
owner's sequence at its reverse index, asset-store and owner-index presence
coincide, the per-owner counts have finite support summing to the global
count, and the global count fits in a `u64`. -/
structure Inv (s : KState) : Prop where
  owned_mem : ∀ a i, i < s.ownedKittiesCount a →
    s.kittyOwner (s.ownedKittiesArray (a, i)) = some a
  owned_idx : ∀ a i, i < s.ownedKittiesCount a →
    s.ownedKittiesIndex (s.ownedKittiesArray (a, i)) = i
  owner_slot : ∀ h a, s.kittyOwner h = some a →
    s.ownedKittiesIndex h < s.ownedKittiesCount a ∧
    s.ownedKittiesArray (a, s.ownedKittiesIndex h) = h
  presence : ∀ h, (s.kitties h).isSome = (s.kittyOwner h).isSome
  count_sum : ∃ nAcc : Nat, (∀ a, nAcc ≤ a → s.ownedKittiesCount a = 0) ∧
    (∑ x ∈ Finset.range nAcc, s.ownedKittiesCount x) = s.allKittiesCount
  total_le : s.allKittiesCount ≤ UMAX

/-- The set of ids currently listed in an owner's enumeration sequence
(slots `0 .. count-1`). -/
def ownedIds (s : KState) (a : Nat) : Finset Hash :=
  (Finset.range (s.ownedKittiesCount a)).image (fun i => s.ownedKittiesArray (a, i))

/-- A sample kitty id. -/
def aH : Hash := [1]

/-- Account 0 has created one kitty with id `aH`. -/
def sOne : KState := (create_kitty (emptyState (fun _ => 0)) 0 aH).1

/-- Account 0 has created three kitties with ids `[1]`, `[2]`, `[3]`, in that
order. -/
def sThree : KState :=
  (create_kitty (create_kitty (create_kitty (emptyState (fun _ => 0)) 0 [1]).1 0 [2]).1 0 [3]).1

/-- Account 0 (Alice) has created kitty `aH` and set its price to 100;
account 1 (Bob) holds a currency balance of 100. -/
def sPriced : KState :=
  (set_price (create_kitty (emptyState (fun a => if a = 1 then 100 else 0)) 0 aH).1 0 aH 100).1

/-- The kitty record minted by `breed_kitty` (lines 174-179): id and dna from
the random hash and the gene-splice, price 0, generation one past the parents'
maximum. -/
def childKitty (s : KState) (kittyId1 kittyId2 randomHash : Hash) : Kitty :=
  { id := randomHash
    dna := spliceDna ((s.kitties kittyId1).getD default).dna
      ((s.kitties kittyId2).getD default).dna randomHash
    price := 0
    gen := max ((s.kitties kittyId1).getD default).gen
      ((s.kitties kittyId2).getD default).gen + 1 }

/-- Genesis (all balances 1), then account 0 creates kitty `aH` and sets its
price to 1. -/
def sSelfBase : KState :=
  (set_price (create_kitty (emptyState (fun _ => 1)) 0 aH).1 0 aH 1).1

/-- `sSelfBase` followed by `m` self-transfers of `aH` by account 0. Each
self-transfer leaves account 0 the owner of the single kitty but bumps
account 0's owned-kitty count by one. -/
def selfIter : Nat → KState
  | 0 => sSelfBase
  | m + 1 => (transfer (selfIter m) 0 0 aH).1

/-! ### Basic lemmas -/

theorem pair_ne_fst {a b : Nat} {i j : Nat} (h : a ≠ b) : (a, i) ≠ (b, j) :=
  fun hE => h (congrArg Prod.fst hE)

theorem pair_ne_snd {a b : Nat} {i j : Nat} (h : i ≠ j) : (a, i) ≠ (b, j) :=
  fun hE => h (congrArg Prod.snd hE)

theorem mint_fst_of_not_ok (s : KState) (toAcc : Nat) (kittyId : Hash) (k : Kitty)
    (h : (mint s toAcc kittyId k).2 ≠ RRes.ok) : (mint s toAcc kittyId k).1 = s := by
  by_cases h1 : (s.kittyOwner kittyId).isSome
  · simp [mint, h1]
  · rcases h2 : checkedAdd (s.ownedKittiesCount toAcc) with _ | v
    · simp [mint, h1, h2]
    · rcases h3 : checkedAdd s.allKittiesCount with _ | w
      · simp [mint, h1, h2, h3]
      · exact absurd (by simp [mint, h1, h2, h3]) h

theorem mint_ok_eq (s : KState) (toAcc : Nat) (kittyId : Hash) (k : Kitty)
    (h1 : s.kittyOwner kittyId = none)
    (h2 : s.ownedKittiesCount toAcc + 1 ≤ UMAX)
    (h3 : s.allKittiesCount + 1 ≤ UMAX) :
    mint s toAcc kittyId k = (mintPost s toAcc kittyId k, RRes.ok) := by
  simp [mint, h1, checkedAdd, h2, h3]

theorem mint_ok_conditions (s : KState) (toAcc : Nat) (kittyId : Hash) (k : Kitty)
    (h : (mint s toAcc kittyId k).2 = RRes.ok) :
    s.kittyOwner kittyId = none ∧ s.ownedKittiesCount toAcc + 1 ≤ UMAX ∧
      s.allKittiesCount + 1 ≤ UMAX ∧
      mint s toAcc kittyId k = (mintPost s toAcc kittyId k, RRes.ok) := by
  by_cases h1 : (s.kittyOwner kittyId).isSome
  · simp [mint, h1] at h
  · by_cases h2 : s.ownedKittiesCount toAcc + 1 ≤ UMAX
    · by_cases h3 : s.allKittiesCount + 1 ≤ UMAX
      · exact ⟨Option.not_isSome_iff_eq_none.mp h1, h2, h3,
          mint_ok_eq s toAcc kittyId k (Option.not_isSome_iff_eq_none.mp h1) h2 h3⟩
      · simp [mint, h1, checkedAdd, h2, h3] at h
    · simp [mint, h1, checkedAdd, h2] at h

theorem transfer_from_ok_eq (s : KState) (f t : Nat) (kid : Hash)
    (h1 : s.kittyOwner kid = some f) (h2 : s.ownedKittiesCount t + 1 ≤ UMAX)
    (h3 : s.ownedKittiesCount f ≠ 0) :
    transfer_from s f t kid = (tfPost s f t kid, RRes.ok) := by
  simp [transfer_from, h1, checkedAdd, checkedSub, h2, h3]

theorem transfer_from_fst_of_not_ok (s : KState) (f t : Nat) (kid : Hash)
    (h : (transfer_from s f t kid).2 ≠ RRes.ok) : (transfer_from s f t kid).1 = s := by
  rcases h1 : s.kittyOwner kid with _ | owner
  · simp [transfer_from, h1]
  · by_cases hof : owner = f
    · subst hof
      rcases h2 : checkedAdd (s.ownedKittiesCount t) with _ | v
      · simp [transfer_from, h1, h2]
      · rcases h3 : checkedSub (s.ownedKittiesCount owner) with _ | w
        · simp [transfer_from, h1, h2, h3]
        · exact absurd (by simp [transfer_from, h1, h2, h3]) h
    · simp [transfer_from, h1, hof]

theorem transfer_from_ok_conditions (s : KState) (f t : Nat) (kid : Hash)
    (h : (transfer_from s f t kid).2 = RRes.ok) :
    s.kittyOwner kid = some f ∧ s.ownedKittiesCount t + 1 ≤ UMAX ∧
      s.ownedKittiesCount f ≠ 0 ∧
      transfer_from s f t kid = (tfPost s f t kid, RRes.ok) := by
  rcases h1 : s.kittyOwner kid with _ | owner
  · simp [transfer_from, h1] at h
  · by_cases hof : owner = f
    · subst hof
      by_cases h2 : s.ownedKittiesCount t + 1 ≤ UMAX
      · by_cases h3 : s.ownedKittiesCount owner = 0
        · simp [transfer_from, h1, checkedAdd, checkedSub, h2, h3] at h
        · exact ⟨rfl, h2, h3, transfer_from_ok_eq s owner t kid h1 h2 h3⟩
      · simp [transfer_from, h1, checkedAdd, h2] at h
    · simp [transfer_from, h1, hof] at h

theorem sum_range_update (g : Nat → Nat) (N a v : Nat) (ha : a < N) :
    (∑ x ∈ Finset.range N, Function.update g a v x) + g a
      = (∑ x ∈ Finset.range N, g x) + v := by
  have hmem : a ∈ Finset.range N := Finset.mem_range.mpr ha
  rw [Finset.sum_update_of_mem hmem, Finset.sdiff_singleton_eq_erase]
  have h2 := Finset.sum_erase_add (Finset.range N) g hmem
  omega

theorem sum_range_extend (g : Nat → Nat) (N M : Nat) (hNM : N ≤ M)
    (hz : ∀ a, N ≤ a → g a = 0) :
    (∑ x ∈ Finset.range M, g x) = ∑ x ∈ Finset.range N, g x := by
  refine (Finset.sum_subset (Finset.range_subset.mpr hNM) ?_).symm
  intro x _ hnx
  exact hz x (by simpa using hnx)

theorem Inv.count_le_total {s : KState} (hI : Inv s) (a : Nat) :
    s.ownedKittiesCount a ≤ s.allKittiesCount := by
  obtain ⟨N, hz, hsum⟩ := hI.count_sum
  by_cases ha : a < N
  · calc s.ownedKittiesCount a
        ≤ ∑ x ∈ Finset.range N, s.ownedKittiesCount x :=
          Finset.single_le_sum (fun i _ => Nat.zero_le _) (Finset.mem_range.mpr ha)
      _ = s.allKittiesCount := hsum
  · rw [hz a (by omega)]; omega

theorem Inv.pair_le_total {s : KState} (hI : Inv s) {a b : Nat} (hab : a ≠ b) :
    s.ownedKittiesCount a + s.ownedKittiesCount b ≤ s.allKittiesCount := by
  obtain ⟨N, hz, hsum⟩ := hI.count_sum
  by_cases ha : a < N
  · by_cases hb : b < N
    · have hsub : ({a, b} : Finset Nat) ⊆ Finset.range N := by
        intro x hx
        simp only [Finset.mem_insert, Finset.mem_singleton] at hx
        rcases hx with rfl | rfl <;> simp [Finset.mem_range, ha, hb]
      have hle := Finset.sum_le_sum_of_subset (f := s.ownedKittiesCount) hsub
      rw [Finset.sum_pair hab] at hle
      omega
    · have := hI.count_le_total a
      rw [hz b (by omega)]; omega
  · have := hI.count_le_total b
    rw [hz a (by omega)]; omega

theorem inv_mintPost (s : KState) (toAcc : Nat) (kittyId : Hash) (k : Kitty)
    (hI : Inv s) (hOwn : s.kittyOwner kittyId = none)
    (hTot : s.allKittiesCount + 1 ≤ UMAX) :
    Inv (mintPost s toAcc kittyId k) := by
  have hNotListed : ∀ a i, i < s.ownedKittiesCount a →
      s.ownedKittiesArray (a, i) ≠ kittyId := by
    intro a i hi hEq
    have hmem := hI.owned_mem a i hi
    rw [hEq, hOwn] at hmem
    exact Option.noConfusion hmem
  have hOwnNe : ∀ h a, s.kittyOwner h = some a → h ≠ kittyId := by
    intro h a hh hEq
    rw [hEq, hOwn] at hh
    exact Option.noConfusion hh
  constructor
  · -- owned_mem
    intro a i hi
    simp only [mintPost] at hi ⊢
    by_cases hat : a = toAcc
    · subst hat
      rw [Function.update_same] at hi
      by_cases hic : i = s.ownedKittiesCount a
      · subst hic
        rw [Function.update_same, Function.update_same]
      · have hi' : i < s.ownedKittiesCount a := by omega
        rw [Function.update_noteq (pair_ne_snd hic),
          Function.update_noteq (hNotListed a i hi'), hI.owned_mem a i hi']
    · rw [Function.update_noteq hat] at hi
      rw [Function.update_noteq (pair_ne_fst hat),
        Function.update_noteq (hNotListed a i hi), hI.owned_mem a i hi]
  · -- owned_idx
    intro a i hi
    simp only [mintPost] at hi ⊢
    by_cases hat : a = toAcc
    · subst hat
      rw [Function.update_same] at hi
      by_cases hic : i = s.ownedKittiesCount a
      · subst hic
        rw [Function.update_same, Function.update_same]
      · have hi' : i < s.ownedKittiesCount a := by omega
        rw [Function.update_noteq (pair_ne_snd hic),
          Function.update_noteq (hNotListed a i hi'), hI.owned_idx a i hi']
    · rw [Function.update_noteq hat] at hi
      rw [Function.update_noteq (pair_ne_fst hat),
        Function.update_noteq (hNotListed a i hi), hI.owned_idx a i hi]
  · -- owner_slot
    intro h a hOwn'
    simp only [mintPost] at hOwn' ⊢
    by_cases hhk : h = kittyId
    · subst hhk
      rw [Function.update_same] at hOwn'
      cases hOwn'
      refine ⟨?_, ?_⟩
      · rw [Function.update_same, Function.update_same]
        omega
      · rw [Function.update_same, Function.update_same]
    · rw [Function.update_noteq hhk] at hOwn'
      obtain ⟨hlt, hslot⟩ := hI.owner_slot h a hOwn'
      rw [Function.update_noteq hhk]
      by_cases hat : a = toAcc
      · subst hat
        refine ⟨by rw [Function.update_same]; omega, ?_⟩
        rw [Function.update_noteq (pair_ne_snd (by omega)), hslot]
      · refine ⟨by rw [Function.update_noteq hat]; omega, ?_⟩
        rw [Function.update_noteq (pair_ne_fst hat), hslot]
  · -- presence
    intro h
    simp only [mintPost]
    by_cases hhk : h = kittyId
    · subst hhk
      rw [Function.update_same, Function.update_same]
      rfl
    · rw [Function.update_noteq hhk, Function.update_noteq hhk, hI.presence h]
  · -- count_sum
    obtain ⟨N, hz, hsum⟩ := hI.count_sum
    refine ⟨max N (toAcc + 1), ?_, ?_⟩
    · intro a ha
      simp only [mintPost]
      rw [Function.update_noteq (by omega)]
      exact hz a (by omega)
    · simp only [mintPost]
      have hext := sum_range_extend s.ownedKittiesCount N (max N (toAcc + 1))
        (by omega) hz
      have hupd := sum_range_update s.ownedKittiesCount (max N (toAcc + 1)) toAcc
        (s.ownedKittiesCount toAcc + 1) (by omega)
      omega
  · -- total_le
    simp only [mintPost]
    omega

theorem inv_tfPost (s : KState) (f t : Nat) (kid : Hash)
    (hI : Inv s) (hOwn : s.kittyOwner kid = some f) (hft : f ≠ t)
    (hcap : s.ownedKittiesCount t + 1 ≤ UMAX) :
    Inv (tfPost s f t kid) := by
  have htf : t ≠ f := Ne.symm hft
  obtain ⟨hidx, harr⟩ := hI.owner_slot kid f hOwn
  have hcf1 : 1 ≤ s.ownedKittiesCount f := by omega
  have hLmem : s.kittyOwner (s.ownedKittiesArray (f, s.ownedKittiesCount f - 1)) = some f :=
    hI.owned_mem f (s.ownedKittiesCount f - 1) (by omega)
  have hLidx : s.ownedKittiesIndex (s.ownedKittiesArray (f, s.ownedKittiesCount f - 1)) =
      s.ownedKittiesCount f - 1 :=
    hI.owned_idx f (s.ownedKittiesCount f - 1) (by omega)
  have hker : ∀ a h, s.kittyOwner h = some a → a ≠ f → h ≠ kid := by
    intro a h hh ha hEq
    rw [hEq, hOwn] at hh
    exact ha (by injection hh with hh; omega)
  constructor
  · -- owned_mem
    intro a i hi
    by_cases hswap : s.ownedKittiesIndex kid = s.ownedKittiesCount f - 1
    -- no-swap branch
    · simp only [tfPost, if_pos hswap] at hi ⊢
      by_cases hat : a = t
      · subst hat
        rw [Function.update_same] at hi
        by_cases hic : i = s.ownedKittiesCount a
        · subst hic
          rw [Function.update_noteq (pair_ne_fst htf), Function.update_same,
            Function.update_same]
        · have hi' : i < s.ownedKittiesCount a := by omega
          have hne : s.ownedKittiesArray (a, i) ≠ kid := by
            intro hEq
            have hmem := hI.owned_mem a i hi'
            rw [hEq, hOwn] at hmem
            injection hmem with hmem
            omega
          rw [Function.update_noteq (pair_ne_fst htf),
            Function.update_noteq (pair_ne_snd hic), Function.update_noteq hne,
            hI.owned_mem a i hi']
      · by_cases haf : a = f
        · subst haf
          rw [Function.update_noteq hat, Function.update_same] at hi
          have hne : s.ownedKittiesArray (a, i) ≠ kid := by
            intro hEq
            have := hI.owned_idx a i (by omega)
            rw [hEq] at this
            omega
          rw [Function.update_noteq (pair_ne_snd (by omega : i ≠ s.ownedKittiesCount a - 1)),
            Function.update_noteq (pair_ne_fst hat), Function.update_noteq hne,
            hI.owned_mem a i (by omega)]
        · rw [Function.update_noteq hat, Function.update_noteq haf] at hi
          rw [Function.update_noteq (pair_ne_fst haf), Function.update_noteq (pair_ne_fst hat),
            Function.update_noteq (hker a _ (hI.owned_mem a i hi) haf),
            hI.owned_mem a i hi]
    -- swap branch
    · simp only [tfPost, if_neg hswap] at hi ⊢
      have hkidL : kid ≠ s.ownedKittiesArray (f, s.ownedKittiesCount f - 1) := by
        intro hEq
        rw [← hEq] at hLidx
        exact hswap hLidx
      have hi0lt : s.ownedKittiesIndex kid < s.ownedKittiesCount f - 1 := by omega
      by_cases hat : a = t
      · subst hat
        rw [Function.update_same] at hi
        by_cases hic : i = s.ownedKittiesCount a
        · subst hic
          rw [Function.update_noteq (pair_ne_fst htf), Function.update_same,
            Function.update_same]
        · have hi' : i < s.ownedKittiesCount a := by omega
          have hne : s.ownedKittiesArray (a, i) ≠ kid := by
            intro hEq
            have hmem := hI.owned_mem a i hi'
            rw [hEq, hOwn] at hmem
            injection hmem with hmem
            omega
          rw [Function.update_noteq (pair_ne_fst htf),
            Function.update_noteq (pair_ne_snd hic), Function.update_noteq (pair_ne_fst htf),
            Function.update_noteq hne, hI.owned_mem a i hi']
      · by_cases haf : a = f
        · subst haf
          rw [Function.update_noteq hat, Function.update_same] at hi
          by_cases hii0 : i = s.ownedKittiesIndex kid
          · subst hii0
            rw [Function.update_noteq (pair_ne_snd (by omega)),
              Function.update_noteq (pair_ne_fst hat), Function.update_same,
              Function.update_noteq (Ne.symm hkidL), hLmem]
          · have hne : s.ownedKittiesArray (a, i) ≠ kid := by
              intro hEq
              have := hI.owned_idx a i (by omega)
              rw [hEq] at this
              exact hii0 (by omega)
            rw [Function.update_noteq (pair_ne_snd (by omega : i ≠ s.ownedKittiesCount a - 1)),
              Function.update_noteq (pair_ne_fst hat),
              Function.update_noteq (pair_ne_snd hii0), Function.update_noteq hne,
              hI.owned_mem a i (by omega)]
        · rw [Function.update_noteq hat, Function.update_noteq haf] at hi
          rw [Function.update_noteq (pair_ne_fst haf), Function.update_noteq (pair_ne_fst hat),
            Function.update_noteq (pair_ne_fst haf),
            Function.update_noteq (hker a _ (hI.owned_mem a i hi) haf),
            hI.owned_mem a i hi]
  · -- owned_idx
    intro a i hi
    by_cases hswap : s.ownedKittiesIndex kid = s.ownedKittiesCount f - 1
    -- no-swap branch
    · simp only [tfPost, if_pos hswap] at hi ⊢
      by_cases hat : a = t
      · subst hat
        rw [Function.update_same] at hi
        by_cases hic : i = s.ownedKittiesCount a
        · subst hic
          rw [Function.update_noteq (pair_ne_fst htf), Function.update_same,
            Function.update_same]
        · have hi' : i < s.ownedKittiesCount a := by omega
          have hne : s.ownedKittiesArray (a, i) ≠ kid := by
            intro hEq
            have hmem := hI.owned_mem a i hi'
            rw [hEq, hOwn] at hmem
            injection hmem with hmem
            omega
          rw [Function.update_noteq (pair_ne_fst htf),
            Function.update_noteq (pair_ne_snd hic), Function.update_noteq hne,
            hI.owned_idx a i hi']
      · by_cases haf : a = f
        · subst haf
          rw [Function.update_noteq hat, Function.update_same] at hi
          have hne : s.ownedKittiesArray (a, i) ≠ kid := by
            intro hEq
            have := hI.owned_idx a i (by omega)
            rw [hEq] at this
            omega
          rw [Function.update_noteq (pair_ne_snd (by omega : i ≠ s.ownedKittiesCount a - 1)),
            Function.update_noteq (pair_ne_fst hat), Function.update_noteq hne,
            hI.owned_idx a i (by omega)]
        · rw [Function.update_noteq hat, Function.update_noteq haf] at hi
          rw [Function.update_noteq (pair_ne_fst haf), Function.update_noteq (pair_ne_fst hat),
            Function.update_noteq (hker a _ (hI.owned_mem a i hi) haf),
            hI.owned_idx a i hi]
    -- swap branch
    · simp only [tfPost, if_neg hswap] at hi ⊢
      have hkidL : kid ≠ s.ownedKittiesArray (f, s.ownedKittiesCount f - 1) := by
        intro hEq
        rw [← hEq] at hLidx
        exact hswap hLidx
      have hi0lt : s.ownedKittiesIndex kid < s.ownedKittiesCount f - 1 := by omega
      by_cases hat : a = t
      · subst hat
        rw [Function.update_same] at hi
        by_cases hic : i = s.ownedKittiesCount a
        · subst hic
          rw [Function.update_noteq (pair_ne_fst htf), Function.update_same,
            Function.update_same]
        · have hi' : i < s.ownedKittiesCount a := by omega
          have hmem := hI.owned_mem a i hi'
          have hne : s.ownedKittiesArray (a, i) ≠ kid := by
            intro hEq
            rw [hEq, hOwn] at hmem
            injection hmem with hmem
            omega
          have hneL : s.ownedKittiesArray (a, i) ≠
              s.ownedKittiesArray (f, s.ownedKittiesCount f - 1) := by
            intro hEq
            rw [hEq, hLmem] at hmem
            injection hmem with hmem
            omega
          rw [Function.update_noteq (pair_ne_fst htf),
            Function.update_noteq (pair_ne_snd hic), Function.update_noteq (pair_ne_fst htf),
            Function.update_noteq hne, Function.update_noteq hneL,
            hI.owned_idx a i hi']
      · by_cases haf : a = f
        · subst haf
          rw [Function.update_noteq hat, Function.update_same] at hi
          by_cases hii0 : i = s.ownedKittiesIndex kid
          · subst hii0
            rw [Function.update_noteq (pair_ne_snd (by omega)),
              Function.update_noteq (pair_ne_fst hat), Function.update_same,
              Function.update_noteq (Ne.symm hkidL), Function.update_same]
          · have hne : s.ownedKittiesArray (a, i) ≠ kid := by
              intro hEq
              have := hI.owned_idx a i (by omega)
              rw [hEq] at this
              exact hii0 (by omega)
            have hneL : s.ownedKittiesArray (a, i) ≠
                s.ownedKittiesArray (a, s.ownedKittiesCount a - 1) := by
              intro hEq
              have := hI.owned_idx a i (by omega)
              rw [hEq, hLidx] at this
              omega
            rw [Function.update_noteq (pair_ne_snd (by omega : i ≠ s.ownedKittiesCount a - 1)),
              Function.update_noteq (pair_ne_fst hat),
              Function.update_noteq (pair_ne_snd hii0), Function.update_noteq hne,
              Function.update_noteq hneL, hI.owned_idx a i (by omega)]
        · rw [Function.update_noteq hat, Function.update_noteq haf] at hi
          have hmem := hI.owned_mem a i hi
          have hneL : s.ownedKittiesArray (a, i) ≠
              s.ownedKittiesArray (f, s.ownedKittiesCount f - 1) := by
            intro hEq
            rw [hEq, hLmem] at hmem
            injection hmem with hmem
            omega
          rw [Function.update_noteq (pair_ne_fst haf), Function.update_noteq (pair_ne_fst hat),
            Function.update_noteq (pair_ne_fst haf),
            Function.update_noteq (hker a _ hmem haf), Function.update_noteq hneL,
            hI.owned_idx a i hi]
  · -- owner_slot
    intro h a hOwn2
    by_cases hswap : s.ownedKittiesIndex kid = s.ownedKittiesCount f - 1
    -- no-swap branch
    · simp only [tfPost, if_pos hswap] at hOwn2 ⊢
      by_cases hhk : h = kid
      · subst hhk
        rw [Function.update_same] at hOwn2
        cases hOwn2
        refine ⟨?_, ?_⟩
        · rw [Function.update_same, Function.update_same]
          omega
        · rw [Function.update_same, Function.update_noteq (pair_ne_fst htf),
            Function.update_same]
      · rw [Function.update_noteq hhk] at hOwn2
        obtain ⟨hlt, hslot⟩ := hI.owner_slot h a hOwn2
        rw [Function.update_noteq hhk]
        by_cases hat : a = t
        · subst hat
          refine ⟨by rw [Function.update_same]; omega, ?_⟩
          rw [Function.update_noteq (pair_ne_fst htf),
            Function.update_noteq (pair_ne_snd (by omega)), hslot]
        · by_cases haf : a = f
          · subst haf
            have hne : s.ownedKittiesIndex h ≠ s.ownedKittiesCount a - 1 := by
              intro hEq
              rw [hEq, ← hswap] at hslot
              rw [harr] at hslot
              exact hhk hslot.symm
            refine ⟨by rw [Function.update_noteq hat, Function.update_same]; omega, ?_⟩
            rw [Function.update_noteq (pair_ne_snd hne),
              Function.update_noteq (pair_ne_fst hat), hslot]
          · refine ⟨by rw [Function.update_noteq hat, Function.update_noteq haf]; omega, ?_⟩
            rw [Function.update_noteq (pair_ne_fst haf),
              Function.update_noteq (pair_ne_fst hat), hslot]
    -- swap branch
    · simp only [tfPost, if_neg hswap] at hOwn2 ⊢
      have hkidL : kid ≠ s.ownedKittiesArray (f, s.ownedKittiesCount f - 1) := by
        intro hEq
        rw [← hEq] at hLidx
        exact hswap hLidx
      have hi0lt : s.ownedKittiesIndex kid < s.ownedKittiesCount f - 1 := by omega
      by_cases hhk : h = kid
      · subst hhk
        rw [Function.update_same] at hOwn2
        cases hOwn2
        refine ⟨?_, ?_⟩
        · rw [Function.update_same, Function.update_same]
          omega
        · rw [Function.update_same, Function.update_noteq (pair_ne_fst htf),
            Function.update_same]
      · rw [Function.update_noteq hhk] at hOwn2
        by_cases hhL : h = s.ownedKittiesArray (f, s.ownedKittiesCount f - 1)
        · subst hhL
          rw [hLmem] at hOwn2
          cases hOwn2
          refine ⟨?_, ?_⟩
          · rw [Function.update_noteq hhk, Function.update_same,
              Function.update_noteq hft, Function.update_same]
            omega
          · rw [Function.update_noteq hhk, Function.update_same,
              Function.update_noteq (pair_ne_snd (by omega)),
              Function.update_noteq (pair_ne_fst hft), Function.update_same]
        · obtain ⟨hlt, hslot⟩ := hI.owner_slot h a hOwn2
          rw [Function.update_noteq hhk, Function.update_noteq hhL]
          by_cases hat : a = t
          · subst hat
            refine ⟨by rw [Function.update_same]; omega, ?_⟩
            rw [Function.update_noteq (pair_ne_fst htf),
              Function.update_noteq (pair_ne_snd (by omega)),
              Function.update_noteq (pair_ne_fst htf), hslot]
          · by_cases haf : a = f
            · subst haf
              have hne : s.ownedKittiesIndex h ≠ s.ownedKittiesCount a - 1 := by
                intro hEq
                rw [hEq] at hslot
                exact hhL hslot.symm
              have hnei0 : s.ownedKittiesIndex h ≠ s.ownedKittiesIndex kid := by
                intro hEq
                rw [hEq, harr] at hslot
                exact hhk hslot.symm
              refine ⟨by rw [Function.update_noteq hat, Function.update_same]; omega, ?_⟩
              rw [Function.update_noteq (pair_ne_snd hne),
                Function.update_noteq (pair_ne_fst hat),
                Function.update_noteq (pair_ne_snd hnei0), hslot]
            · refine ⟨by rw [Function.update_noteq hat, Function.update_noteq haf]; omega, ?_⟩
              rw [Function.update_noteq (pair_ne_fst haf),
                Function.update_noteq (pair_ne_fst hat),
                Function.update_noteq (pair_ne_fst haf), hslot]
  · -- presence
    intro h
    simp only [tfPost]
    by_cases hhk : h = kid
    · subst hhk
      rw [Function.update_same, hI.presence h, hOwn]
      rfl
    · rw [Function.update_noteq hhk, hI.presence h]
  · -- count_sum
    obtain ⟨N, hz, hsum⟩ := hI.count_sum
    refine ⟨max N (max f t + 1), ?_, ?_⟩
    · intro a ha
      simp only [tfPost]
      rw [Function.update_noteq (by omega), Function.update_noteq (by omega)]
      exact hz a (by omega)
    · simp only [tfPost]
      have hext := sum_range_extend s.ownedKittiesCount N (max N (max f t + 1))
        (by omega) hz
      have hupd1 := sum_range_update s.ownedKittiesCount (max N (max f t + 1)) f
        (s.ownedKittiesCount f - 1) (by omega)
      have hupd2 := sum_range_update
        (Function.update s.ownedKittiesCount f (s.ownedKittiesCount f - 1))
        (max N (max f t + 1)) t (s.ownedKittiesCount t + 1) (by omega)
      rw [Function.update_noteq htf] at hupd2
      omega
  · -- total_le
    simp only [tfPost]
    exact hI.total_le

theorem inv_empty (bal : Nat → Nat) : Inv (emptyState bal) := by
  constructor
  · intro a i hi; simp [emptyState] at hi
  · intro a i hi; simp [emptyState] at hi
  · intro h a hOwn; simp [emptyState] at hOwn
  · intro h; simp [emptyState]
  · exact ⟨0, fun a _ => rfl, rfl⟩
  · simp [emptyState, UMAX]

theorem mintBump_snd (s : KState) (sender : Nat) (rand : Hash) (k : Kitty) :
    (mintBump s sender rand k).2 = (mint s sender rand k).2 := by
  rcases hmr : (mint s sender rand k).2 with _ | m | m <;> simp [mintBump, hmr]

theorem mintBump_fst_of_not_ok (s : KState) (sender : Nat) (rand : Hash) (k : Kitty)
    (h : (mint s sender rand k).2 ≠ RRes.ok) : (mintBump s sender rand k).1 = s := by
  rcases hmr : (mint s sender rand k).2 with _ | m | m
  · exact absurd hmr h
  · simp [mintBump, hmr, mint_fst_of_not_ok s sender rand k (by rw [hmr]; simp)]
  · simp [mintBump, hmr, mint_fst_of_not_ok s sender rand k (by rw [hmr]; simp)]

theorem mintBump_fst_of_ok (s : KState) (sender : Nat) (rand : Hash) (k : Kitty)
    (h : (mint s sender rand k).2 = RRes.ok) :
    (mintBump s sender rand k).1 = { mintPost s sender rand k with nonce := s.nonce + 1 } := by
  obtain ⟨h1, h2, h3, heq⟩ := mint_ok_conditions s sender rand k h
  simp [mintBump, heq, mintPost]

theorem inv_nonce (s : KState) (n : Nat) (hI : Inv s) : Inv { s with nonce := n } := by
  obtain ⟨h1, h2, h3, h4, h5, h6⟩ := hI
  exact ⟨h1, h2, h3, h4, h5, h6⟩

theorem inv_balances (s : KState) (b : Nat → Nat) (hI : Inv s) :
    Inv { s with balances := b } := by
  obtain ⟨h1, h2, h3, h4, h5, h6⟩ := hI
  exact ⟨h1, h2, h3, h4, h5, h6⟩

theorem inv_mint (s : KState) (toAcc : Nat) (kittyId : Hash) (k : Kitty) (hI : Inv s) :
    Inv (mint s toAcc kittyId k).1 := by
  by_cases hok : (mint s toAcc kittyId k).2 = RRes.ok
  · obtain ⟨h1, h2, h3, heq⟩ := mint_ok_conditions s toAcc kittyId k hok
    rw [heq]
    exact inv_mintPost s toAcc kittyId k hI h1 h3
  · rw [mint_fst_of_not_ok s toAcc kittyId k hok]
    exact hI

theorem inv_mintBump (s : KState) (sender : Nat) (rand : Hash) (k : Kitty) (hI : Inv s) :
    Inv (mintBump s sender rand k).1 := by
  by_cases hok : (mint s sender rand k).2 = RRes.ok
  · rw [mintBump_fst_of_ok s sender rand k hok]
    obtain ⟨h1, h2, h3, _⟩ := mint_ok_conditions s sender rand k hok
    exact inv_nonce _ _ (inv_mintPost s sender rand k hI h1 h3)
  · rw [mintBump_fst_of_not_ok s sender rand k hok]
    exact hI

theorem inv_create (s : KState) (sender : Nat) (randomHash : Hash) (hI : Inv s) :
    Inv (create_kitty s sender randomHash).1 :=
  inv_mintBump s sender randomHash _ hI

theorem inv_set_price (s : KState) (sender : Nat) (kittyId : Hash) (p : Nat) (hI : Inv s) :
    Inv (set_price s sender kittyId p).1 := by
  by_cases hex : (s.kitties kittyId).isSome = false
  · simpa [set_price, hex] using hI
  · rcases how : s.kittyOwner kittyId with _ | owner
    · simpa [set_price, hex, how] using hI
    · by_cases hos : owner = sender
      · have hgoal : (set_price s sender kittyId p).1 = setPricePost s kittyId p := by
          simp [set_price, hex, how, hos]
        rw [hgoal]
        simp only [setPricePost]
        refine ⟨hI.owned_mem, hI.owned_idx, hI.owner_slot, ?_, hI.count_sum, hI.total_le⟩
        intro h
        dsimp only
        by_cases hhk : h = kittyId
        · subst hhk
          rw [Function.update_same, how]
          rfl
        · rw [Function.update_noteq hhk]
          exact hI.presence h
      · simpa [set_price, hex, how, hos] using hI

theorem inv_transfer_from_ne (s : KState) (f t : Nat) (kid : Hash) (hI : Inv s)
    (hft : f ≠ t) : Inv (transfer_from s f t kid).1 := by
  by_cases hok : (transfer_from s f t kid).2 = RRes.ok
  · obtain ⟨h1, h2, _, heq⟩ := transfer_from_ok_conditions s f t kid hok
    rw [heq]
    exact inv_tfPost s f t kid hI h1 hft h2
  · rw [transfer_from_fst_of_not_ok s f t kid hok]
    exact hI

theorem inv_transfer_ne (s : KState) (sender toAcc : Nat) (kid : Hash) (hI : Inv s)
    (hst : sender ≠ toAcc) : Inv (transfer s sender toAcc kid).1 := by
  rcases how : s.kittyOwner kid with _ | owner
  · simpa [transfer, how] using hI
  · by_cases hos : owner = sender
    · have hgoal : (transfer s sender toAcc kid).1 = (transfer_from s sender toAcc kid).1 := by
        simp [transfer, how, hos]
      rw [hgoal]
      exact inv_transfer_from_ne s sender toAcc kid hI hst
    · simpa [transfer, how, hos] using hI

theorem inv_breed (s : KState) (sender : Nat) (k1 k2 randomHash : Hash) (hI : Inv s) :
    Inv (breed_kitty s sender k1 k2 randomHash).1 := by
  by_cases he1 : (s.kitties k1).isSome = false
  · simpa [breed_kitty, he1] using hI
  · by_cases he2 : (s.kitties k2).isSome = false
    · simpa [breed_kitty, he1, he2] using hI
    · have hgoal : (breed_kitty s sender k1 k2 randomHash).1 =
          (mintBump s sender randomHash
            { id := randomHash,
              dna := spliceDna ((s.kitties k1).getD default).dna
                ((s.kitties k2).getD default).dna randomHash,
              price := 0,
              gen := max ((s.kitties k1).getD default).gen
                ((s.kitties k2).getD default).gen + 1 }).1 := by
        simp [breed_kitty, he1, he2]
      rw [hgoal]
      exact inv_mintBump s sender randomHash _ hI

theorem inv_buy_not_ok (s : KState) (sender : Nat) (kid : Hash) (mp : Nat) (hI : Inv s)
    (hno : (buy_kitty s sender kid mp).2 ≠ RRes.ok) : Inv (buy_kitty s sender kid mp).1 := by
  by_cases hex : (s.kitties kid).isSome = false
  · simpa [buy_kitty, hex] using hI
  · rcases how : s.kittyOwner kid with _ | owner
    · simpa [buy_kitty, hex, how] using hI
    · by_cases hos : owner = sender
      · subst hos
        by_cases hp0 : ((s.kitties kid).getD default).price = 0
        · simpa [buy_kitty, hex, how, hp0] using hI
        · by_cases hpm : ((s.kitties kid).getD default).price ≤ mp
          · rcases hcur : currencyTransfer s.balances owner owner
                ((s.kitties kid).getD default).price with _ | newBal
            · simpa [buy_kitty, hex, how, hp0, hpm, hcur] using hI
            · rcases hr : (transfer_from { s with balances := newBal } owner owner kid).2
                  with _ | m | m
              · exact absurd (by simp [buy_kitty, hex, how, hp0, hpm, hcur, hr]) hno
              · have hgoal : (buy_kitty s owner kid mp).1 =
                    (transfer_from { s with balances := newBal } owner owner kid).1 := by
                  simp [buy_kitty, hex, how, hp0, hpm, hcur, hr]
                rw [hgoal, transfer_from_fst_of_not_ok _ _ _ _ (by rw [hr]; simp)]
                exact inv_balances s newBal hI
              · have hgoal : (buy_kitty s owner kid mp).1 =
                    (transfer_from { s with balances := newBal } owner owner kid).1 := by
                  simp [buy_kitty, hex, how, hp0, hpm, hcur, hr]
                rw [hgoal, transfer_from_fst_of_not_ok _ _ _ _ (by rw [hr]; simp)]
                exact inv_balances s newBal hI
          · simpa [buy_kitty, hex, how, hp0, hpm] using hI
      · simpa [buy_kitty, hex, how, hos] using hI

theorem mem_ownedIds {s : KState} (hI : Inv s) (a : Nat) (h : Hash) :
    h ∈ ownedIds s a ↔ s.kittyOwner h = some a := by
  constructor
  · intro hm
    simp only [ownedIds, Finset.mem_image, Finset.mem_range] at hm
    obtain ⟨i, hi, rfl⟩ := hm
    exact hI.owned_mem a i hi
  · intro ho
    obtain ⟨hlt, hslot⟩ := hI.owner_slot h a ho
    simp only [ownedIds, Finset.mem_image, Finset.mem_range]
    exact ⟨s.ownedKittiesIndex h, hlt, hslot⟩

theorem tfPost_kittyOwner (s : KState) (f t : Nat) (kid : Hash) :
    (tfPost s f t kid).kittyOwner = Function.update s.kittyOwner kid (some t) := rfl

theorem tfPost_counts (s : KState) (f t : Nat) (kid : Hash) :
    (tfPost s f t kid).ownedKittiesCount =
      Function.update (Function.update s.ownedKittiesCount f (s.ownedKittiesCount f - 1)) t
        (s.ownedKittiesCount t + 1) := rfl

theorem tfPost_kitties (s : KState) (f t : Nat) (kid : Hash) :
    (tfPost s f t kid).kitties = s.kitties := rfl

theorem tfPost_balances (s : KState) (f t : Nat) (kid : Hash) :
    (tfPost s f t kid).balances = s.balances := rfl

theorem transfer_eq_transfer_from (s : KState) (sender toAcc : Nat) (kid : Hash)
    (how : s.kittyOwner kid = some sender) :
    transfer s sender toAcc kid = transfer_from s sender toAcc kid := by
  simp [transfer, how]

theorem transfer_from_ok_of (s : KState) (f t : Nat) (kid : Hash) (hI : Inv s)
    (hOwn : s.kittyOwner kid = some f) (hft : f ≠ t) :
    transfer_from s f t kid = (tfPost s f t kid, RRes.ok) := by
  have h1 : 1 ≤ s.ownedKittiesCount f := by
    have := (hI.owner_slot kid f hOwn).1
    omega
  have h2 : s.ownedKittiesCount t + 1 ≤ UMAX := by
    have hp := hI.pair_le_total hft
    have ht := hI.total_le
    omega
  exact transfer_from_ok_eq s f t kid hOwn h2 (by omega)

theorem checkedAdd_lt (n : Nat) (h : n < UMAX) : checkedAdd n = some (n + 1) := by
  show (if n + 1 ≤ UMAX then some (n + 1) else none) = some (n + 1)
  rw [if_pos (by omega)]

theorem checkedAdd_max : checkedAdd UMAX = none := by
  show (if UMAX + 1 ≤ UMAX then some (UMAX + 1) else none) = none
  rw [if_neg (by omega)]

theorem spliceDna_length (d1 d2 m : Hash) : (spliceDna d1 d2 m).length = d1.length := by
  induction d1 generalizing d2 m with
  | nil => cases d2 <;> cases m <;> rfl
  | cons b1 d1 ih =>
    cases d2 with
    | nil => cases m <;> rfl
    | cons b2 d2 =>
      cases m with
      | nil => rfl
      | cons r m => simp [spliceDna, ih]

theorem spliceDna_getD (d1 d2 m : Hash) (i : Nat) (h1 : d1.length = m.length)
    (h2 : d2.length = m.length) (hi : i < m.length) :
    (spliceDna d1 d2 m).getD i 0 =
      if m.getD i 0 % 2 = 0 then d2.getD i 0 else d1.getD i 0 := by
  induction m generalizing d1 d2 i with
  | nil => simp at hi
  | cons r m ih =>
    cases d1 with
    | nil => simp at h1
    | cons b1 d1 =>
      cases d2 with
      | nil => simp at h2
      | cons b2 d2 =>
        cases i with
        | zero => simp [spliceDna]
        | succ i =>
          simp only [spliceDna, List.getD_cons_succ]
          exact ih d1 d2 i (by simpa using h1) (by simpa using h2) (by simpa using hi)

theorem spliceDna_self (d m : Hash) : spliceDna d d m = d := by
  induction d generalizing m with
  | nil => cases m <;> rfl
  | cons b d ih =>
    cases m with
    | nil => rfl
    | cons r m => simp [spliceDna, ih]

theorem breed_eq (s : KState) (sender : Nat) (kittyId1 kittyId2 randomHash : Hash)
    (h1 : (s.kitties kittyId1).isSome = true) (h2 : (s.kitties kittyId2).isSome = true) :
    breed_kitty s sender kittyId1 kittyId2 randomHash =
      mintBump s sender randomHash (childKitty s kittyId1 kittyId2 randomHash) := by
  simp [breed_kitty, childKitty, h1, h2]

theorem mintBump_kitties_of_ok (s : KState) (sender : Nat) (rand : Hash) (k : Kitty)
    (h : (mintBump s sender rand k).2 = RRes.ok) :
    (mintBump s sender rand k).1.kitties rand = some k := by
  rw [mintBump_snd] at h
  rw [mintBump_fst_of_ok s sender rand k h]
  show (mintPost s sender rand k).kitties rand = some k
  rw [show (mintPost s sender rand k).kitties = Function.update s.kitties rand (some k)
    from rfl, Function.update_same]

/-! ### Claim C1 -/

/-- C1 (evaluating the code at the claim's scenario): Alice (account 0) owns
kitty `aH` priced 100 via `set_price`; Bob (account 1) holds balance 100 and
calls buy with max_price 100. The claim says the purchase succeeds; the code
instead fails with "You do not own this kitty" — `buy_kitty`'s ownership check
requires the *buyer* to already own the kitty — and leaves the state
unchanged. -/
theorem claim_C1 :
    Reachable sPriced ∧
    sPriced.kittyOwner aH = some 0 ∧
    ((sPriced.kitties aH).getD default).price = 100 ∧
    sPriced.balances 1 = 100 ∧
    (buy_kitty sPriced 1 aH 100).2 = RRes.err "You do not own this kitty" ∧
    (buy_kitty sPriced 1 aH 100).1 = sPriced :=
  ⟨Reachable.price _ 0 aH 100 (Reachable.create _ 0 aH (Reachable.genesis _)),
    rfl, rfl, rfl, rfl, rfl⟩

/-! ### Claim C3 -/

/-- C3 (evaluating the code at the claim's scenario): Bob (account 1) attempts
to buy the kitty priced 100 with max_price 50. The claim says this fails with
the price-exceeds-limit error ("kitty is too expensive"); the code instead
fails earlier with "You do not own this kitty", because the ownership check
precedes the price checks — so the stated "exactly when" error taxonomy does
not hold. The failure does leave the state unchanged. -/
theorem claim_C3 :
    Reachable sPriced ∧
    ((sPriced.kitties aH).getD default).price = 100 ∧
    (buy_kitty sPriced 1 aH 50).2 = RRes.err "You do not own this kitty" ∧
    (buy_kitty sPriced 1 aH 50).2 ≠ RRes.err "kitty is too expensive" ∧
    (buy_kitty sPriced 1 aH 50).1 = sPriced :=
  ⟨Reachable.price _ 0 aH 100 (Reachable.create _ 0 aH (Reachable.genesis _)),
    rfl, rfl, by decide, rfl⟩

/-! ### Claim C4 -/

/-- C4: account 0 creates ids [1], [2], [3] in order, then transfers [2] to
account 1: account 0's sequence becomes [[1], [3]] ([3] relocated into [2]'s
old slot 1, with its reverse index updated to 1) and account 1's sequence is
[[2]]. In general, whenever `transfer_from` succeeds from an
invariant-satisfying state and the transferred id's index differs from
`last = count(from) - 1`, the id stored at slot `last` is moved to the
transferred id's old slot and its reverse index is set to that slot. -/
theorem claim_C4 :
    ((transfer sThree 0 1 [2]).2 = RRes.ok ∧
      (transfer sThree 0 1 [2]).1.ownedKittiesCount 0 = 2 ∧
      (transfer sThree 0 1 [2]).1.ownedKittiesArray (0, 0) = [1] ∧
      (transfer sThree 0 1 [2]).1.ownedKittiesArray (0, 1) = [3] ∧
      (transfer sThree 0 1 [2]).1.ownedKittiesIndex [3] = 1 ∧
      (transfer sThree 0 1 [2]).1.ownedKittiesCount 1 = 1 ∧
      (transfer sThree 0 1 [2]).1.ownedKittiesArray (1, 0) = [2]) ∧
    (∀ s f t kid, Inv s → (transfer_from s f t kid).2 = RRes.ok →
      s.ownedKittiesIndex kid ≠ s.ownedKittiesCount f - 1 →
      (transfer_from s f t kid).1.ownedKittiesArray (f, s.ownedKittiesIndex kid) =
        s.ownedKittiesArray (f, s.ownedKittiesCount f - 1) ∧
      (transfer_from s f t kid).1.ownedKittiesIndex
        (s.ownedKittiesArray (f, s.ownedKittiesCount f - 1)) =
        s.ownedKittiesIndex kid) := by
  refine ⟨⟨rfl, rfl, rfl, rfl, rfl, rfl, rfl⟩, ?_⟩
  intro s f t kid hI hok hne
  obtain ⟨hOwn, hcap, hnz, heq⟩ := transfer_from_ok_conditions s f t kid hok
  obtain ⟨hidx, harr⟩ := hI.owner_slot kid f hOwn
  have hLidx : s.ownedKittiesIndex (s.ownedKittiesArray (f, s.ownedKittiesCount f - 1)) =
      s.ownedKittiesCount f - 1 :=
    hI.owned_idx f (s.ownedKittiesCount f - 1) (by omega)
  have hkidL : s.ownedKittiesArray (f, s.ownedKittiesCount f - 1) ≠ kid := by
    intro hEq
    rw [hEq] at hLidx
    exact hne hLidx
  have hmid : ((f : Nat), s.ownedKittiesIndex kid) ≠ (t, s.ownedKittiesCount t) := by
    by_cases htf2 : f = t
    · subst htf2
      exact pair_ne_snd (by omega)
    · exact pair_ne_fst htf2
  rw [heq]
  dsimp only
  constructor
  · simp only [tfPost, if_neg hne]
    rw [Function.update_noteq (pair_ne_snd hne), Function.update_noteq hmid,
      Function.update_same]
  · simp only [tfPost, if_neg hne]
    rw [Function.update_noteq hkidL, Function.update_same]

/-- Witness for claim_C4's general swap-and-pop rule, at the concrete
three-kitty transfer. -/
theorem claim_C4_witness :
    (transfer_from sThree 0 1 [2]).1.ownedKittiesArray (0, sThree.ownedKittiesIndex [2]) =
      sThree.ownedKittiesArray (0, sThree.ownedKittiesCount 0 - 1) ∧
    (transfer_from sThree 0 1 [2]).1.ownedKittiesIndex
      (sThree.ownedKittiesArray (0, sThree.ownedKittiesCount 0 - 1)) =
      sThree.ownedKittiesIndex [2] :=
  claim_C4.2 sThree 0 1 [2]
    (inv_create _ 0 [3] (inv_create _ 0 [2] (inv_create _ 0 [1] (inv_empty _))))
    rfl (by decide)

/-! ### Claim C6 -/

/-- C6: under the data-model invariants, `mint` fails with "Kitty already
exists" whenever the id is already present, fails with the respective
count-overflow error whenever incrementing the recipient's per-owner count or
the global count would exceed 2^64 - 1, and every failure leaves the state
unchanged — all checks are evaluated before the first write. -/
theorem claim_C6 (s : KState) (toAcc : Nat) (kittyId : Hash) (k : Kitty) (hI : Inv s) :
    ((s.kitties kittyId).isSome = true →
      mint s toAcc kittyId k = (s, RRes.err "Kitty already exists")) ∧
    ((s.kitties kittyId).isSome = false → s.ownedKittiesCount toAcc = UMAX →
      mint s toAcc kittyId k =
        (s, RRes.err "Overflow adding a new kitty to account balance")) ∧
    ((s.kitties kittyId).isSome = false → s.ownedKittiesCount toAcc < UMAX →
      s.allKittiesCount = UMAX →
      mint s toAcc kittyId k =
        (s, RRes.err "Overflow adding a new kitty to total supply")) ∧
    (∀ m, (mint s toAcc kittyId k).2 = RRes.err m → (mint s toAcc kittyId k).1 = s) := by
  refine ⟨?_, ?_, ?_, ?_⟩
  · intro hp
    have hyes : (s.kittyOwner kittyId).isSome = true := by
      rw [← hI.presence]
      exact hp
    simp [mint, hyes]
  · intro hp hcnt
    have hno : (s.kittyOwner kittyId).isSome = false := by
      rw [← hI.presence]
      exact hp
    simp [mint, hno, hcnt, checkedAdd_max]
  · intro hp hcnt htot
    have hno : (s.kittyOwner kittyId).isSome = false := by
      rw [← hI.presence]
      exact hp
    simp [mint, hno, checkedAdd_lt _ hcnt, htot, checkedAdd_max]
  · intro m hm
    exact mint_fst_of_not_ok s toAcc kittyId k (by rw [hm]; simp)

/-- Witness for claim_C6: minting a colliding id fails with the
already-exists error and no state change. -/
theorem claim_C6_witness :
    mint sOne 0 aH { id := aH, dna := aH, price := 0, gen := 0 } =
      (sOne, RRes.err "Kitty already exists") :=
  (claim_C6 sOne 0 aH { id := aH, dna := aH, price := 0, gen := 0 }
    (inv_create _ 0 aH (inv_empty _))).1 rfl

/-! ### Claim C2 -/

/-- C2 (amended): from every state satisfying the data-model invariants
(per-owner sequences consistent with counts and reverse indices, and the
per-owner counts summing to the global count), the invariants are preserved by
`create_kitty`, `set_price` and `breed_kitty` unconditionally, by `transfer`
whenever sender and recipient differ, and by `buy_kitty` whenever it does not
return success. (The claim as stated — preservation by transfer also when the
two accounts are equal, and by every buy — is refuted by
`claim_C2_counterexample`: a self-transfer, and hence every successful buy,
corrupts the per-owner enumeration.) -/
theorem claim_C2 (s : KState) (hI : Inv s) :
    (∀ sender randomHash, Inv (create_kitty s sender randomHash).1) ∧
    (∀ sender kittyId p, Inv (set_price s sender kittyId p).1) ∧
    (∀ sender toAcc kittyId, sender ≠ toAcc → Inv (transfer s sender toAcc kittyId).1) ∧
    (∀ sender kittyId maxPrice, (buy_kitty s sender kittyId maxPrice).2 ≠ RRes.ok →
      Inv (buy_kitty s sender kittyId maxPrice).1) ∧
    (∀ sender kittyId1 kittyId2 randomHash,
      Inv (breed_kitty s sender kittyId1 kittyId2 randomHash).1) :=
  ⟨fun sender rand => inv_create s sender rand hI,
   fun sender kid p => inv_set_price s sender kid p hI,
   fun sender toAcc kid hne => inv_transfer_ne s sender toAcc kid hI hne,
   fun sender kid mp hno => inv_buy_not_ok s sender kid mp hI hno,
   fun sender k1 k2 rand => inv_breed s sender k1 k2 rand hI⟩

/-- C2 counterexample: from the reachable, invariant-satisfying state in which
account 0 owns the single kitty `aH`, the self-transfer `transfer(0 → 0, aH)`
succeeds, yet afterwards account 0's count is 2 while the global count is
still 1, and the invariants fail. -/
theorem claim_C2_counterexample :
    Reachable sOne ∧ Inv sOne ∧
    (transfer sOne 0 0 aH).2 = RRes.ok ∧
    (transfer sOne 0 0 aH).1.ownedKittiesCount 0 = 2 ∧
    (transfer sOne 0 0 aH).1.allKittiesCount = 1 ∧
    ¬ Inv (transfer sOne 0 0 aH).1 := by
  refine ⟨Reachable.create _ 0 aH (Reachable.genesis _),
    inv_create _ 0 aH (inv_empty _), rfl, rfl, rfl, ?_⟩
  intro hbad
  have hmem := hbad.owned_mem 0 0 (by decide)
  exact absurd hmem (by decide)

/-- Witness for claim_C2: applied at the empty state with a concrete create. -/
theorem claim_C2_witness :
    Inv (create_kitty (emptyState (fun _ => 0)) 0 aH).1 :=
  (claim_C2 (emptyState (fun _ => 0)) (inv_empty _)).1 0 aH

/-! ### Claim C5 -/

/-- C5 (amended): in every state satisfying the data-model invariants, if
kitty `kid` is owned by `A` and `B` is a different account, then
`transfer(A → B, kid)` succeeds, the converse `transfer(B → A, kid)` succeeds,
ownership of `kid` returns to `A`, and both `A`'s and `B`'s sets of owned ids
are restored. (The claim as stated, without `A ≠ B`, is refuted by
`claim_C5_counterexample`.) -/
theorem claim_C5 (s : KState) (A B : Nat) (kid : Hash) (hI : Inv s) (hAB : A ≠ B)
    (hOwn : s.kittyOwner kid = some A) :
    (transfer s A B kid).2 = RRes.ok ∧
    (transfer (transfer s A B kid).1 B A kid).2 = RRes.ok ∧
    (transfer (transfer s A B kid).1 B A kid).1.kittyOwner kid = some A ∧
    ownedIds (transfer (transfer s A B kid).1 B A kid).1 A = ownedIds s A ∧
    ownedIds (transfer (transfer s A B kid).1 B A kid).1 B = ownedIds s B := by
  have htf1 : transfer s A B kid = (tfPost s A B kid, RRes.ok) := by
    rw [transfer_eq_transfer_from s A B kid hOwn]
    exact transfer_from_ok_of s A B kid hI hOwn hAB
  have hcap1 : s.ownedKittiesCount B + 1 ≤ UMAX := by
    have hp := hI.pair_le_total hAB
    have ht := hI.total_le
    have hpos := (hI.owner_slot kid A hOwn).1
    omega
  have hI1 : Inv (tfPost s A B kid) := inv_tfPost s A B kid hI hOwn hAB hcap1
  have hOwn1 : (tfPost s A B kid).kittyOwner kid = some B := by
    rw [tfPost_kittyOwner, Function.update_same]
  have htf2 : transfer (tfPost s A B kid) B A kid =
      (tfPost (tfPost s A B kid) B A kid, RRes.ok) := by
    rw [transfer_eq_transfer_from _ B A kid hOwn1]
    exact transfer_from_ok_of _ B A kid hI1 hOwn1 (Ne.symm hAB)
  have hcap2 : (tfPost s A B kid).ownedKittiesCount A + 1 ≤ UMAX := by
    have hc : (tfPost s A B kid).ownedKittiesCount A = s.ownedKittiesCount A - 1 := by
      rw [tfPost_counts, Function.update_noteq hAB, Function.update_same]
    have hle := hI.count_le_total A
    have ht := hI.total_le
    rw [hc]
    omega
  have hI2 : Inv (tfPost (tfPost s A B kid) B A kid) :=
    inv_tfPost _ B A kid hI1 hOwn1 (Ne.symm hAB) hcap2
  have howner2 : (tfPost (tfPost s A B kid) B A kid).kittyOwner = s.kittyOwner := by
    rw [tfPost_kittyOwner, tfPost_kittyOwner, Function.update_idem]
    funext h
    by_cases hk : h = kid
    · subst hk
      rw [Function.update_same, hOwn]
    · rw [Function.update_noteq hk]
  refine ⟨by rw [htf1], ?_, ?_, ?_, ?_⟩
  · rw [htf1]
    dsimp only
    rw [htf2]
  · rw [htf1]
    dsimp only
    rw [htf2]
    dsimp only
    rw [howner2, hOwn]
  · rw [htf1]
    dsimp only
    rw [htf2]
    dsimp only
    ext h
    rw [mem_ownedIds hI2, howner2, mem_ownedIds hI]
  · rw [htf1]
    dsimp only
    rw [htf2]
    dsimp only
    ext h
    rw [mem_ownedIds hI2, howner2, mem_ownedIds hI]

/-- C5 counterexample: taking B = A (a round trip of self-transfers from the
reachable state where account 0 owns the single kitty `aH`), both transfers
succeed and the owner is restored, but account 0's set of owned ids changes
from {aH} to {defaultHash, aH}. -/
theorem claim_C5_counterexample :
    Reachable sOne ∧ sOne.kittyOwner aH = some 0 ∧
    (transfer sOne 0 0 aH).2 = RRes.ok ∧
    (transfer (transfer sOne 0 0 aH).1 0 0 aH).2 = RRes.ok ∧
    (transfer (transfer sOne 0 0 aH).1 0 0 aH).1.kittyOwner aH = some 0 ∧
    ownedIds (transfer (transfer sOne 0 0 aH).1 0 0 aH).1 0 ≠ ownedIds sOne 0 :=
  ⟨Reachable.create _ 0 aH (Reachable.genesis _), rfl, rfl, rfl, rfl, by decide⟩

/-- Witness for claim_C5: the round trip account 0 → account 1 → account 0 of
kitty `aH` from the state where account 0 created it. -/
theorem claim_C5_witness :
    (transfer sOne 0 1 aH).2 = RRes.ok ∧
    (transfer (transfer sOne 0 1 aH).1 1 0 aH).2 = RRes.ok ∧
    (transfer (transfer sOne 0 1 aH).1 1 0 aH).1.kittyOwner aH = some 0 ∧
    ownedIds (transfer (transfer sOne 0 1 aH).1 1 0 aH).1 0 = ownedIds sOne 0 ∧
    ownedIds (transfer (transfer sOne 0 1 aH).1 1 0 aH).1 1 = ownedIds sOne 1 :=
  claim_C5 sOne 0 1 aH (inv_create _ 0 aH (inv_empty _)) (by decide) rfl

/-! ### Claim C7 -/

/-- C7: whenever `breed_kitty` succeeds on two existing parents (with dna byte
strings the same length as the random hash, as for real 32-byte hashes), the
minted child has id equal to the random hash, price 0, generation
`max(parent gens) + 1`, and dna equal to parent 1's dna except at each byte
position where the random-hash byte is even, where it equals parent 2's
byte. -/
theorem claim_C7 (s : KState) (sender : Nat) (kittyId1 kittyId2 randomHash : Hash)
    (hok : (breed_kitty s sender kittyId1 kittyId2 randomHash).2 = RRes.ok)
    (hl1 : ((s.kitties kittyId1).getD default).dna.length = randomHash.length)
    (hl2 : ((s.kitties kittyId2).getD default).dna.length = randomHash.length) :
    ∃ child : Kitty,
      (breed_kitty s sender kittyId1 kittyId2 randomHash).1.kitties randomHash =
        some child ∧
      child.id = randomHash ∧
      child.price = 0 ∧
      child.gen = max ((s.kitties kittyId1).getD default).gen
        ((s.kitties kittyId2).getD default).gen + 1 ∧
      child.dna.length = randomHash.length ∧
      (∀ i, i < randomHash.length →
        child.dna.getD i 0 =
          if randomHash.getD i 0 % 2 = 0
          then ((s.kitties kittyId2).getD default).dna.getD i 0
          else ((s.kitties kittyId1).getD default).dna.getD i 0) := by
  have he1 : (s.kitties kittyId1).isSome = true := by
    cases hx : (s.kitties kittyId1).isSome
    · simp [breed_kitty, hx] at hok
    · rfl
  have he2 : (s.kitties kittyId2).isSome = true := by
    cases hx : (s.kitties kittyId2).isSome
    · simp [breed_kitty, he1, hx] at hok
    · rfl
  rw [breed_eq s sender kittyId1 kittyId2 randomHash he1 he2] at hok ⊢
  refine ⟨childKitty s kittyId1 kittyId2 randomHash,
    mintBump_kitties_of_ok _ _ _ _ hok, rfl, rfl, rfl, ?_, ?_⟩
  · show (spliceDna ((s.kitties kittyId1).getD default).dna
      ((s.kitties kittyId2).getD default).dna randomHash).length = randomHash.length
    rw [spliceDna_length, hl1]
  · intro i hi
    show (spliceDna ((s.kitties kittyId1).getD default).dna
      ((s.kitties kittyId2).getD default).dna randomHash).getD i 0 = _
    rw [spliceDna_getD _ _ _ i hl1 hl2 hi]

/-- Witness for claim_C7: breeding the kitties [1] and [2] (singleton dna)
with random hash [5]. Since 5 is odd the child keeps parent 1's byte. -/
theorem claim_C7_witness :
    ∃ child : Kitty,
      (breed_kitty sThree 0 [1] [2] [5]).1.kitties [5] = some child ∧
      child.id = [5] ∧
      child.price = 0 ∧
      child.gen = max ((sThree.kitties [1]).getD default).gen
        ((sThree.kitties [2]).getD default).gen + 1 ∧
      child.dna.length = List.length [5] ∧
      (∀ i, i < List.length [5] →
        child.dna.getD i 0 =
          if List.getD [5] i 0 % 2 = 0
          then ((sThree.kitties [2]).getD default).dna.getD i 0
          else ((sThree.kitties [1]).getD default).dna.getD i 0) :=
  claim_C7 sThree 0 [1] [2] [5] rfl rfl rfl

/-! ### Claim C9 -/

/-- C9: in `create_kitty` and `breed_kitty` the outcome equals the inner
`mint`'s outcome; the nonce is incremented (to nonce + 1) exactly when the
inner mint succeeds, and when the mint fails the entire state — the nonce
included — is returned unchanged, so an identical retry derives the same
candidate id. -/
theorem claim_C9 (s : KState) (sender : Nat) (randomHash kittyId1 kittyId2 : Hash) :
    ((create_kitty s sender randomHash).2 =
      (mint s sender randomHash
        { id := randomHash, dna := randomHash, price := 0, gen := 0 }).2) ∧
    ((mint s sender randomHash
        { id := randomHash, dna := randomHash, price := 0, gen := 0 }).2 = RRes.ok →
      (create_kitty s sender randomHash).1.nonce = s.nonce + 1) ∧
    ((mint s sender randomHash
        { id := randomHash, dna := randomHash, price := 0, gen := 0 }).2 ≠ RRes.ok →
      (create_kitty s sender randomHash).1 = s) ∧
    ((s.kitties kittyId1).isSome = true → (s.kitties kittyId2).isSome = true →
      ((breed_kitty s sender kittyId1 kittyId2 randomHash).2 =
        (mint s sender randomHash (childKitty s kittyId1 kittyId2 randomHash)).2 ∧
      ((mint s sender randomHash (childKitty s kittyId1 kittyId2 randomHash)).2 =
          RRes.ok →
        (breed_kitty s sender kittyId1 kittyId2 randomHash).1.nonce = s.nonce + 1) ∧
      ((mint s sender randomHash (childKitty s kittyId1 kittyId2 randomHash)).2 ≠
          RRes.ok →
        (breed_kitty s sender kittyId1 kittyId2 randomHash).1 = s))) := by
  refine ⟨mintBump_snd s sender randomHash _, ?_, ?_, ?_⟩
  · intro hok
    show (mintBump s sender randomHash
      { id := randomHash, dna := randomHash, price := 0, gen := 0 }).1.nonce = s.nonce + 1
    rw [mintBump_fst_of_ok s sender randomHash _ hok]
  · intro hno
    show (mintBump s sender randomHash
      { id := randomHash, dna := randomHash, price := 0, gen := 0 }).1 = s
    exact mintBump_fst_of_not_ok s sender randomHash _ hno
  · intro he1 he2
    rw [breed_eq s sender kittyId1 kittyId2 randomHash he1 he2]
    refine ⟨mintBump_snd s sender randomHash _, ?_, ?_⟩
    · intro hok
      rw [mintBump_fst_of_ok s sender randomHash _ hok]
    · intro hno
      exact mintBump_fst_of_not_ok s sender randomHash _ hno

/-- Witness for claim_C9: a successful create from the empty state bumps the
nonce to 1. -/
theorem claim_C9_witness :
    (create_kitty (emptyState (fun _ => 0)) 0 aH).1.nonce =
      (emptyState (fun _ => 0)).nonce + 1 :=
  (claim_C9 (emptyState (fun _ => 0)) 0 aH aH aH).2.1 rfl

/-! ### Claim C10 -/

/-- C10: breeding a kitty with itself is permitted — for an existing kitty
`p`, absent an id collision on the random hash and absent count overflow,
`breed_kitty(sender, p, p)` succeeds; and whenever it succeeds the child's dna
is byte-for-byte equal to `p`'s dna regardless of the random mask, with
price 0 and generation `p.gen + 1`. -/
theorem claim_C10 (s : KState) (sender : Nat) (p randomHash : Hash) :
    ((s.kitties p).isSome = true → (s.kittyOwner randomHash).isSome = false →
      s.ownedKittiesCount sender < UMAX → s.allKittiesCount < UMAX →
      (breed_kitty s sender p p randomHash).2 = RRes.ok) ∧
    ((breed_kitty s sender p p randomHash).2 = RRes.ok →
      (breed_kitty s sender p p randomHash).1.kitties randomHash =
        some { id := randomHash, dna := ((s.kitties p).getD default).dna, price := 0,
               gen := ((s.kitties p).getD default).gen + 1 }) := by
  constructor
  · intro hp hno hc ht
    have h1 : s.kittyOwner randomHash = none := by
      rcases hx : s.kittyOwner randomHash with _ | v
      · rfl
      · rw [hx] at hno
        simp at hno
    rw [breed_eq s sender p p randomHash hp hp, mintBump_snd,
      mint_ok_eq s sender randomHash _ h1 (by omega) (by omega)]
  · intro hok
    have he1 : (s.kitties p).isSome = true := by
      cases hx : (s.kitties p).isSome
      · simp [breed_kitty, hx] at hok
      · rfl
    rw [breed_eq s sender p p randomHash he1 he1] at hok ⊢
    rw [mintBump_kitties_of_ok _ _ _ _ hok]
    have hch : childKitty s p p randomHash =
        { id := randomHash, dna := ((s.kitties p).getD default).dna, price := 0,
          gen := ((s.kitties p).getD default).gen + 1 } := by
      simp [childKitty, spliceDna_self, Nat.max_self]
    rw [hch]

/-- Witness for claim_C10: self-breeding kitty [1] with random hash [9]. -/
theorem claim_C10_witness :
    (breed_kitty sThree 0 [1] [1] [9]).2 = RRes.ok ∧
    (breed_kitty sThree 0 [1] [1] [9]).1.kitties [9] =
      some { id := [9], dna := [1], price := 0, gen := 1 } := by
  refine ⟨(claim_C10 sThree 0 [1] [9]).1 rfl rfl (by decide) (by decide), ?_⟩
  exact (claim_C10 sThree 0 [1] [9]).2
    ((claim_C10 sThree 0 [1] [9]).1 rfl rfl (by decide) (by decide))

/-! ### Claim C8 -/

theorem transfer_from_overflow (s : KState) (f t : Nat) (kid : Hash)
    (hOwn : s.kittyOwner kid = some f) (hc : s.ownedKittiesCount t = UMAX) :
    transfer_from s f t kid =
      (s, RRes.err "Overflow adding a new kitty to account balance") := by
  simp [transfer_from, hOwn, hc, checkedAdd_max]

theorem buy_panics (s : KState)
    (hk : s.kitties aH = some { id := aH, dna := aH, price := 1, gen := 0 })
    (ho : s.kittyOwner aH = some 0) (hc : s.ownedKittiesCount 0 = UMAX)
    (hb : s.balances 0 = 1) :
    (buy_kitty s 0 aH 1).2 = RRes.panic expectMsg := by
  have hex : (s.kitties aH).isSome = true := by
    rw [hk]
    rfl
  have hkd : (s.kitties aH).getD default = { id := aH, dna := aH, price := 1, gen := 0 } := by
    rw [hk]
    rfl
  simp [buy_kitty, hex, ho, hkd, hb, currencyTransfer, transfer_from, hc, checkedAdd_max]

/-- Account 0's bookkeeping facts along the self-transfer trace: the kitty
record, its ownership, the balance, and — crucially — the owned-kitty count,
which each self-transfer inflates by one. -/
theorem selfIter_facts : ∀ m, m + 1 ≤ UMAX →
    (selfIter m).kitties aH = some { id := aH, dna := aH, price := 1, gen := 0 } ∧
    (selfIter m).kittyOwner aH = some 0 ∧
    (selfIter m).ownedKittiesCount 0 = m + 1 ∧
    (selfIter m).balances 0 = 1 := by
  intro m
  induction m with
  | zero => exact fun _ => ⟨rfl, rfl, rfl, rfl⟩
  | succ m ih =>
    intro hm
    obtain ⟨hk, ho, hc, hb⟩ := ih (by omega)
    have htr : transfer (selfIter m) 0 0 aH = (tfPost (selfIter m) 0 0 aH, RRes.ok) := by
      rw [transfer_eq_transfer_from _ _ _ _ ho]
      exact transfer_from_ok_eq _ _ _ _ ho (by omega) (by omega)
    refine ⟨?_, ?_, ?_, ?_⟩
    · show (transfer (selfIter m) 0 0 aH).1.kitties aH = _
      rw [htr]
      dsimp only
      rw [tfPost_kitties, hk]
    · show (transfer (selfIter m) 0 0 aH).1.kittyOwner aH = _
      rw [htr]
      dsimp only
      rw [tfPost_kittyOwner, Function.update_same]
    · show (transfer (selfIter m) 0 0 aH).1.ownedKittiesCount 0 = m + 1 + 1
      rw [htr]
      dsimp only
      rw [tfPost_counts, Function.update_same, hc]
    · show (transfer (selfIter m) 0 0 aH).1.balances 0 = 1
      rw [htr]
      dsimp only
      rw [tfPost_balances, hb]

theorem selfIter_reach : ∀ m, Reachable (selfIter m) := by
  intro m
  induction m with
  | zero => exact Reachable.price _ 0 aH 1 (Reachable.create _ 0 aH (Reachable.genesis _))
  | succ m ih => exact Reachable.xfer _ 0 0 aH ih

/-- C8: refuted. `selfIter (UMAX - 1)` is reachable from genesis through the
public dispatchables (one create, one set_price, and 2^64 - 2 self-transfers,
each of which inflates account 0's count by one); in it, account 0 owns kitty
`aH` priced 1 with a sufficient balance, so a self-buy with max_price 1 passes
every validation and the funds transfer, yet the internal `transfer_from`
fails with a count overflow and the `expect` panic branch — which the claim
says is unreachable — is reached. -/
theorem claim_C8 :
    Reachable (selfIter (UMAX - 1)) ∧
    (selfIter (UMAX - 1)).kitties aH =
      some { id := aH, dna := aH, price := 1, gen := 0 } ∧
    (selfIter (UMAX - 1)).kittyOwner aH = some 0 ∧
    (selfIter (UMAX - 1)).ownedKittiesCount 0 = UMAX ∧
    (selfIter (UMAX - 1)).balances 0 = 1 ∧
    (buy_kitty (selfIter (UMAX - 1)) 0 aH 1).2 = RRes.panic expectMsg := by
  have hU : 1 ≤ UMAX := by norm_num [UMAX]
  obtain ⟨hk, ho, hc, hb⟩ := selfIter_facts (UMAX - 1) (by omega)
  have hc' : (selfIter (UMAX - 1)).ownedKittiesCount 0 = UMAX := by
    rw [hc]
    omega
  exact ⟨selfIter_reach _, hk, ho, hc', hb, buy_panics _ hk ho hc' hb⟩

end SubstrateKitties
